import Mathlib

/-!
Verification of the langcodes tag-normalization and matching engine.

The definitions below are a shallow embedding of `langcodes/__init__.py`.
Python `None` is modelled as `Option.none`; Python truthiness of optional
strings and lists is made explicit through `truthyS` / `truthyL` (both
`None` and an empty string / empty list are falsy).  The external
read-only reference tables (`DEFAULT_SCRIPTS`, `LANGUAGE_REPLACEMENTS`,
`TERRITORY_REPLACEMENTS`, `NORMALIZED_MACROLANGUAGES`, `LIKELY_SUBTAGS`,
the distance rules) are parameters, modelled as association lists.  The
`LIKELY_SUBTAGS` table maps serialized tags to `Language` values: the
source stores strings and parses them with `Language.get(value,
normalize=False)`; the modelled table carries these parsed values
directly, since the tag parser module is not part of the sources under
verification.
-/

namespace Langcodes

/-- Python truthiness of an optional string: `None` and `""` are falsy. -/
def truthyS : Option String → Bool
  | none => false
  | some s => !(s == "")

/-- Python truthiness of an optional list: `None` and `[]` are falsy. -/
def truthyL : Option (List String) → Bool
  | none => false
  | some l => !l.isEmpty

/-- Python `a or b` on optional strings: `a` when truthy, else `b`. -/
def orS (a b : Option String) : Option String :=
  if truthyS a then a else b

/-- Python `a or b` on optional lists: `a` when truthy, else `b`. -/
def orL (a b : Option (List String)) : Option (List String) :=
  if truthyL a then a else b

/-- Lookup in a Python dict modelled as an association list. -/
def dictGet {κ α : Type} [DecidableEq κ] : List (κ × α) → κ → Option α
  | [], _ => none
  | (k2, v) :: rest, k => if k2 = k then some v else dictGet rest k

/-- Insert a string into an ascending list, keeping it ascending. -/
def insertSorted (x : String) : List String → List String
  | [] => [x]
  | y :: ys => if x < y then x :: y :: ys else y :: insertSorted x ys

/-- Ascending sort of a list of strings, as Python `sorted`. -/
def sortStrings (l : List String) : List String :=
  l.foldl (fun acc x => insertSorted x acc) []

/-- The characters of a string, as one-character strings.  This models
Python `set(s)` for a string `s`, whose elements are the characters. -/
def charStrings (s : String) : List String :=
  s.data.map (fun c => String.mk [c])

/-- The `Language` class of `langcodes/__init__.py`: a parsed language
tag.  Every attribute may be unspecified (`None` in Python, `none`
here).  The Python attribute `private` is spelled `priv` because
`private` is reserved in Lean. -/
structure Language where
  language : Option String := none
  extlangs : Option (List String) := none
  script : Option String := none
  territory : Option String := none
  variants : Option (List String) := none
  extensions : Option (List String) := none
  priv : Option String := none
deriving DecidableEq

/-- The subtag list built by `Language.to_tag`: start from `['und']`,
overwrite the head with the language when truthy, then append sorted
extlangs, script, territory, sorted variants, extensions in order, and
the private-use string, skipping falsy fields. -/
def tagSegments (t : Language) : List String :=
  [if truthyS t.language then t.language.getD "und" else "und"]
  ++ (if truthyL t.extlangs then sortStrings (t.extlangs.getD []) else [])
  ++ (if truthyS t.script then [t.script.getD ""] else [])
  ++ (if truthyS t.territory then [t.territory.getD ""] else [])
  ++ (if truthyL t.variants then sortStrings (t.variants.getD []) else [])
  ++ (if truthyL t.extensions then t.extensions.getD [] else [])
  ++ (if truthyS t.priv then [t.priv.getD ""] else [])

/-- `Language.to_tag`: the canonical serialization, subtags joined
with a hyphen. -/
def Language.to_tag (t : Language) : String :=
  String.intercalate "-" (tagSegments t)

/-- The `Language.__eq__` method: two instances are equal iff their
cached serialized tags are equal strings. -/
def Language.eq (a b : Language) : Bool :=
  a.to_tag == b.to_tag

/-- `Language.update(other)`: field-wise merge in which `other`'s
truthy fields win over the receiver's. -/
def Language.update (self other : Language) : Language where
  language := orS other.language self.language
  extlangs := orL other.extlangs self.extlangs
  script := orS other.script self.script
  territory := orS other.territory self.territory
  variants := orL other.variants self.variants
  extensions := orL other.extensions self.extensions
  priv := orS other.priv self.priv

/-- `Language._filter_attributes(keyset)`: keep only the truthy
attributes whose names are in the keyset; everything else becomes
unspecified (the source goes through `to_dict`, which keeps truthy
fields, filters the keys, and rebuilds with `Language.make`). -/
def Language.filter_attributes (t : Language) (keys : List String) : Language where
  language := if "language" ∈ keys ∧ truthyS t.language then t.language else none
  extlangs := if "extlangs" ∈ keys ∧ truthyL t.extlangs then t.extlangs else none
  script := if "script" ∈ keys ∧ truthyS t.script then t.script else none
  territory := if "territory" ∈ keys ∧ truthyS t.territory then t.territory else none
  variants := if "variants" ∈ keys ∧ truthyL t.variants then t.variants else none
  extensions := if "extensions" ∈ keys ∧ truthyL t.extensions then t.extensions else none
  priv := if "private" ∈ keys ∧ truthyS t.priv then t.priv else none

/-- `Language.BROADER_KEYSETS`, in source order. -/
def BROADER_KEYSETS : List (List String) :=
  [["language", "script", "territory"],
   ["language", "territory"],
   ["language", "script"],
   ["language"],
   ["script"],
   []]

/-- The loop of `Language.broaden`: walk the keysets, appending each
filtered form whose serialization is not in `seen`, and adding the
appended serializations to `seen`. -/
def broadenGo (t : Language) : List (List String) → List String → List Language
  | [], _ => []
  | ks :: rest, seen =>
    let filtered := t.filter_attributes ks
    let tag := filtered.to_tag
    if tag ∈ seen then broadenGo t rest seen
    else filtered :: broadenGo t rest (tag :: seen)

/-- `Language.broaden`: the list `[self]` followed by the filtered
forms.  The source initializes the seen-set as `set(self.to_tag())`,
which is the set of the characters of the tag. -/
def Language.broaden (t : Language) : List Language :=
  t :: broadenGo t BROADER_KEYSETS (charStrings t.to_tag)

/-- Walk a broadened list and return the likely-subtags value of the
first element whose serialization is a key of the table. -/
def findLikely (table : List (String × Language)) : List Language → Option Language
  | [] => none
  | b :: rest =>
    match dictGet table b.to_tag with
    | some v => some v
    | none => findLikely table rest

/-- The message of the `RuntimeError` raised by `Language.maximize`
when no broadened form is a key of the likely-subtags table. -/
def likelySubtagsErrorMsg : String :=
  "Could not fill in likely values. This represents a problem with the LIKELY_SUBTAGS data."

/-- `Language.maximize`: find the first broadened form whose tag is a
key of the likely-subtags table, merge the associated value with the
original tag (the original's truthy fields win), and return it; raise
a `RuntimeError` (modelled as `Except.error`) when no form matches. -/
def Language.maximize (table : List (String × Language)) (t : Language) :
    Except String Language :=
  match findLikely table t.broaden with
  | some v => Except.ok (v.update t)
  | none => Except.error likelySubtagsErrorMsg

/-- `Language.simplify_script`: when both language and script are
truthy and the default-scripts table maps the language to exactly this
script, drop the script; otherwise return the value unchanged. -/
def Language.simplify_script (ds : List (String × String)) (t : Language) : Language :=
  if truthyS t.language && truthyS t.script then
    if dictGet ds (t.language.getD "") == t.script then { t with script := none }
    else t
  else t

/-- `Language.prefer_macrolanguage`: replace the language (or `und`
when the language is falsy) by its normalized macrolanguage when the
table has one; otherwise return the value unchanged. -/
def Language.prefer_macrolanguage (macros : List (String × String)) (t : Language) :
    Language :=
  let language := if truthyS t.language then t.language.getD "" else "und"
  match dictGet macros language with
  | some m => { t with language := some m }
  | none => t

/-- A `(language, script, territory)` triple as extracted by
`Language.distance` from a maximized tag; entries may be `None`. -/
abbrev Triple : Type := Option String × Option String × Option String

/-- The literal wildcard triple used for a fully-unspecified side. -/
def undTriple : Triple := (some "und", some "Zzzz", some "ZZ")

/-- Extract `(language, script, territory)` from a `Language`. -/
def tripleOf (c : Language) : Triple := (c.language, c.script, c.territory)

/-- Modelled from the spec: the function `tuple_distance_cached` of
`langcodes/language_distance.py` is not under the verified sources.
Following section 4.3 of the spec, a missing triple entry stands for
its wildcard marker (`und`, `Zzzz`, `ZZ`); each layer (language,
script, territory) contributes zero when the two sides agree, or the
rule-table entry for the pair when the table has one, or that layer's
default complete-mismatch penalty (language 80, script 50, territory
4, which reproduce the documented anchor `distance(en, zh) = 134`);
the layer contributions are summed and the result is clamped to the
legal output range 0 to 134. -/
def tuple_distance (rules : List ((String × String) × Nat)) (d s : Triple) : Nat :=
  if d = s then 0
  else
    let dlang := d.1.getD "und"
    let slang := s.1.getD "und"
    let dscript := d.2.1.getD "Zzzz"
    let sscript := s.2.1.getD "Zzzz"
    let dterr := d.2.2.getD "ZZ"
    let sterr := s.2.2.getD "ZZ"
    let langD := if dlang = slang then 0 else (dictGet rules (dlang, slang)).getD 80
    let scriptD := if dscript = sscript then 0 else (dictGet rules (dscript, sscript)).getD 50
    let terrD := if dterr = sterr then 0 else (dictGet rules (dterr, sterr)).getD 4
    min 134 (langD + scriptD + terrD)

/-- The per-side triple computation of `Language.distance`: a side
with language, script and territory all literally `None` becomes the
wildcard triple without maximizing; any other side is macrolanguage-
normalized, maximized (which can raise), and projected. -/
def tripleFor (likely : List (String × Language)) (macros : List (String × String))
    (x : Language) : Except String Triple :=
  if x.language = none ∧ x.script = none ∧ x.territory = none then Except.ok undTriple
  else
    match Language.maximize likely (x.prefer_macrolanguage macros) with
    | Except.ok c => Except.ok (tripleOf c)
    | Except.error e => Except.error e

/-- `Language.distance`: zero for value-equal tags, otherwise the
rule-table distance between the two computed triples. -/
def Language.distance (likely : List (String × Language))
    (macros : List (String × String)) (rules : List ((String × String) × Nat))
    (self supported : Language) : Except String Nat :=
  if Language.eq supported self then Except.ok 0
  else
    match tripleFor likely macros self with
    | Except.error e => Except.error e
    | Except.ok dt =>
      match tripleFor likely macros supported with
      | Except.error e => Except.error e
      | Except.ok st => Except.ok (tuple_distance rules dt st)

/-- The typed subtags produced by the tag parser. -/
inductive Subtag where
  | language
  | extlang
  | script
  | territory
  | variant
  | extension
  | grandfathered
  | privateUse
deriving DecidableEq

/-- Python `data.update(other.to_dict())`: overwrite each attribute
for which `other` has a truthy value. -/
def dictUpdateFromTruthy (d o : Language) : Language where
  language := if truthyS o.language then o.language else d.language
  extlangs := if truthyL o.extlangs then o.extlangs else d.extlangs
  script := if truthyS o.script then o.script else d.script
  territory := if truthyS o.territory then o.territory else d.territory
  variants := if truthyL o.variants then o.variants else d.variants
  extensions := if truthyL o.extensions then o.extensions else d.extensions
  priv := if truthyS o.priv then o.priv else d.priv

/-- Python `data.setdefault(key, []).append(value)`. -/
def appendOpt (l : Option (List String)) (v : String) : List String :=
  l.getD [] ++ [v]

/-- The component loop of `Language.get`: fold the parsed components
into the accumulating attribute dict (represented as a `Language`,
since present dict values are always truthy).  `recGet` stands for the
recursive `Language.get` calls made on replacement strings. -/
def getLoop (lreps treps : List (String × String)) (recGet : String → Option Language)
    (normalize : Bool) : List (Subtag × String) → Language → Option Language
  | [], d => some d
  | (typ, value) :: rest, d =>
    if typ = Subtag.extlang ∧ normalize = true ∧ d.language.isSome then
      match dictGet lreps ((d.language.getD "") ++ "-" ++ value).toLower with
      | some norm =>
        match recGet norm with
        | none => none
        | some parsed =>
          getLoop lreps treps recGet normalize rest (dictUpdateFromTruthy d parsed)
      | none =>
        getLoop lreps treps recGet normalize rest
          { d with extlangs := some (appendOpt d.extlangs value) }
    else if typ = Subtag.extlang then
      getLoop lreps treps recGet normalize rest
        { d with extlangs := some (appendOpt d.extlangs value) }
    else if typ = Subtag.variant then
      getLoop lreps treps recGet normalize rest
        { d with variants := some (appendOpt d.variants value) }
    else if typ = Subtag.extension then
      getLoop lreps treps recGet normalize rest
        { d with extensions := some (appendOpt d.extensions value) }
    else if typ = Subtag.language then
      if value = "und" then getLoop lreps treps recGet normalize rest d
      else if normalize then
        match dictGet lreps value.toLower with
        | some rep =>
          match recGet rep with
          | none => none
          | some parsed =>
            getLoop lreps treps recGet normalize rest (dictUpdateFromTruthy d parsed)
        | none => getLoop lreps treps recGet normalize rest { d with language := some value }
      else getLoop lreps treps recGet normalize rest { d with language := some value }
    else if typ = Subtag.territory then
      if normalize then
        getLoop lreps treps recGet normalize rest
          { d with territory := some ((dictGet treps value.toLower).getD value) }
      else getLoop lreps treps recGet normalize rest { d with territory := some value }
    else if typ = Subtag.grandfathered then
      getLoop lreps treps recGet normalize rest { d with language := some value }
    else if typ = Subtag.script then
      getLoop lreps treps recGet normalize rest { d with script := some value }
    else
      getLoop lreps treps recGet normalize rest { d with priv := some value }

/-- `Language.get`: replace the whole tag when normalizing and the
lowercased tag is a key of the language replacements, parse it, and
fold the components.  The tag parser (`langcodes/tag_parser.py`, not
under the verified sources) is a parameter returning the typed
components or `none` for a `LanguageTagError`; the fuel bounds the
recursion made on replacement strings. -/
def language_get (parse : String → Option (List (Subtag × String)))
    (lreps treps : List (String × String)) : Nat → Bool → String → Option Language
  | 0, _, _ => none
  | fuel + 1, normalize, tag0 =>
    let tag := if normalize then (dictGet lreps tag0.toLower).getD tag0 else tag0
    match parse tag with
    | none => none
    | some comps =>
      getLoop lreps treps (fun s => language_get parse lreps treps fuel normalize s)
        normalize comps {}

/-- Modelled from the spec: `langcodes/tag_parser.py` is not under the
verified sources.  Section 4.1 lowercases and maps `_` to `-` before
classification, and recognizes a grandfathered full-tag literal by
membership in a fixed list, yielding a single grandfathered component.
Inputs outside the grandfathered list are outside this model. -/
def parseGrandfathered (grandfathered : List String) (tag : String) :
    Option (List (Subtag × String)) :=
  let t := String.mk (tag.data.map (fun c => (if c = '_' then '-' else c).toLower))
  if t ∈ grandfathered then some [(Subtag.grandfathered, t)] else none

/-- `standardize_tag`: get with normalization, optionally prefer the
macrolanguage, simplify the script, and serialize. -/
def standardize_tag (parse : String → Option (List (Subtag × String)))
    (lreps treps dscripts macros : List (String × String)) (fuel : Nat)
    (macroFlag : Bool) (tag : String) : Option String :=
  match language_get parse lreps treps fuel true tag with
  | none => none
  | some langdata =>
    let langdata := if macroFlag then langdata.prefer_macrolanguage macros else langdata
    some (Language.simplify_script dscripts langdata).to_tag

/-- `tag_distance`: parse both tags with normalization and take the
distance. -/
def tag_distance (parse : String → Option (List (Subtag × String)))
    (lreps treps : List (String × String)) (likely : List (String × Language))
    (macros : List (String × String)) (rules : List ((String × String) × Nat))
    (fuel : Nat) (desired supported : String) : Option Nat :=
  match language_get parse lreps treps fuel true desired with
  | none => none
  | some dobj =>
    match language_get parse lreps treps fuel true supported with
    | none => none
    | some sobj => (Language.distance likely macros rules dobj sobj).toOption

/-- Stable insertion of a `(tag, distance)` pair after all pairs with
a smaller-or-equal distance. -/
def insertPair (x : String × Nat) : List (String × Nat) → List (String × Nat)
  | [] => [x]
  | y :: ys => if y.2 ≤ x.2 then y :: insertPair x ys else x :: y :: ys

/-- Python `list.sort(key=itemgetter(1))`: a stable ascending sort by
the distance component. -/
def sortPairs (l : List (String × Nat)) : List (String × Nat) :=
  l.foldl (fun acc x => insertPair x acc) []

/-- `closest_match`: literal membership short-circuit, then
standardize and re-check membership, then distances filtered by
`max_distance` with the `("und", 1000)` sentinel appended, stably
sorted; the head is the answer. -/
def closest_match (parse : String → Option (List (Subtag × String)))
    (lreps treps dscripts macros : List (String × String))
    (likely : List (String × Language)) (rules : List ((String × String) × Nat))
    (fuel : Nat) (desired_language : String) (supported_languages : List String)
    (max_distance : Nat) : Option (String × Nat) :=
  if desired_language ∈ supported_languages then some (desired_language, 0)
  else
    match standardize_tag parse lreps treps dscripts macros fuel false desired_language with
    | none => none
    | some desired2 =>
      if desired2 ∈ supported_languages then some (desired2, 0)
      else
        match supported_languages.mapM (fun s =>
            (tag_distance parse lreps treps likely macros rules fuel desired2 s).map
              (fun n => (s, n))) with
        | none => none
        | some match_distances =>
          (sortPairs ((match_distances.filter (fun p => p.2 ≤ max_distance))
            ++ [("und", 1000)])).head?

/-- The interning key built by `Language.make`: the tuple of attribute
values, with falsy list attributes collapsed to the empty tuple. -/
structure MakeKey where
  language : Option String
  extlangs : List String
  script : Option String
  territory : Option String
  variants : List String
  extensions : List String
  priv : Option String
deriving DecidableEq

/-- The `values` tuple computed at the top of `Language.make`. -/
def makeKey (language : Option String) (extlangs : Option (List String))
    (script territory : Option String) (variants extensions : Option (List String))
    (priv : Option String) : MakeKey :=
  ⟨language, extlangs.getD [], script, territory, variants.getD [],
    extensions.getD [], priv⟩

/-- `Language.make` with the class-level `_INSTANCES` cache made
explicit: when the key is already interned return the stored instance
and the unchanged cache, otherwise build the instance and intern it. -/
def makeInterned (instances : List (MakeKey × Language)) (language : Option String)
    (extlangs : Option (List String)) (script territory : Option String)
    (variants extensions : Option (List String)) (priv : Option String) :
    Language × List (MakeKey × Language) :=
  let key := makeKey language extlangs script territory variants extensions priv
  match dictGet instances key with
  | some inst => (inst, instances)
  | none =>
    let inst : Language :=
      ⟨language, extlangs, script, territory, variants, extensions, priv⟩
    (inst, (key, inst) :: instances)

/-- The shape of every value of the likely-subtags table: a full
`language-script-territory` triple and nothing else, which is what the
parse of a maximized likely-subtags string yields. -/
def FullTriple (v : Language) : Prop :=
  truthyS v.language = true ∧ truthyS v.script = true ∧ truthyS v.territory = true ∧
    truthyL v.extlangs = false ∧ truthyL v.variants = false ∧
    truthyL v.extensions = false ∧ truthyS v.priv = false

/-- The predicate of the specification for `simplify_script`: the
language is set and the script equals the registered default script
for that language. -/
def scriptIsDefault (ds : List (String × String)) (t : Language) : Prop :=
  ∃ l s, t.language = some l ∧ l ≠ "" ∧ t.script = some s ∧ s ≠ "" ∧
    dictGet ds l = some s

theorem truthyS_orS (a b : Option String) (h : truthyS b = true) :
    truthyS (orS a b) = true := by
  unfold orS
  split
  · assumption
  · exact h

theorem filter_attributes_nil (t : Language) : t.filter_attributes [] = {} := by
  simp [Language.filter_attributes]

theorem to_tag_empty : ({ } : Language).to_tag = "und" := rfl

theorem charStrings_no_und (s : String) : "und" ∉ charStrings s := by
  unfold charStrings
  intro h
  rw [List.mem_map] at h
  obtain ⟨c, _, hc⟩ := h
  have hdata := congrArg String.data hc
  simp [String.data] at hdata

theorem broadenGo_und (t : Language) (kss : List (List String)) :
    ∀ seen : List String, [] ∈ kss → "und" ∉ seen →
      ∃ b, b ∈ broadenGo t kss seen ∧ b.to_tag = "und" := by
  induction kss with
  | nil =>
    intro seen h _
    simp at h
  | cons ks rest ih =>
    intro seen hmem hund
    by_cases htag : (t.filter_attributes ks).to_tag ∈ seen
    · have hks : [] ∈ rest := by
        rcases List.mem_cons.mp hmem with heq | hmem2
        · exfalso
          rw [← heq, filter_attributes_nil, to_tag_empty] at htag
          exact hund htag
        · exact hmem2
      obtain ⟨b, hb, hbt⟩ := ih seen hks hund
      refine ⟨b, ?_, hbt⟩
      simp only [broadenGo]
      rw [if_pos htag]
      exact hb
    · by_cases hu : (t.filter_attributes ks).to_tag = "und"
      · refine ⟨t.filter_attributes ks, ?_, hu⟩
        simp only [broadenGo]
        rw [if_neg htag]
        exact List.mem_cons_self _ _
      · have hks : [] ∈ rest := by
          rcases List.mem_cons.mp hmem with heq | hmem2
          · exfalso
            rw [← heq, filter_attributes_nil, to_tag_empty] at hu
            exact hu rfl
          · exact hmem2
        have hund2 : "und" ∉ ((t.filter_attributes ks).to_tag :: seen) := by
          intro hmem3
          rcases List.mem_cons.mp hmem3 with h | h
          · exact hu h.symm
          · exact hund h
        obtain ⟨b, hb, hbt⟩ := ih _ hks hund2
        refine ⟨b, ?_, hbt⟩
        simp only [broadenGo]
        rw [if_neg htag]
        exact List.mem_cons_of_mem _ hb

theorem broaden_has_und (t : Language) : ∃ b, b ∈ t.broaden ∧ b.to_tag = "und" := by
  obtain ⟨b, hb, hbt⟩ := broadenGo_und t BROADER_KEYSETS (charStrings t.to_tag)
    (by simp [BROADER_KEYSETS]) (charStrings_no_und _)
  exact ⟨b, List.mem_cons_of_mem _ hb, hbt⟩

theorem findLikely_none (table : List (String × Language)) :
    ∀ l : List Language, (∀ b ∈ l, dictGet table b.to_tag = none) →
      findLikely table l = none := by
  intro l
  induction l with
  | nil => intro _; rfl
  | cons b rest ih =>
    intro h
    simp only [findLikely]
    rw [h b (List.mem_cons_self _ _)]
    exact ih (fun x hx => h x (List.mem_cons_of_mem _ hx))

theorem findLikely_mem (table : List (String × Language)) :
    ∀ (l : List Language) (v : Language), findLikely table l = some v →
      ∃ k, dictGet table k = some v := by
  intro l
  induction l with
  | nil =>
    intro v h
    simp [findLikely] at h
  | cons b rest ih =>
    intro v h
    simp only [findLikely] at h
    cases hd : dictGet table b.to_tag with
    | some w =>
      rw [hd] at h
      cases h
      exact ⟨b.to_tag, hd⟩
    | none =>
      rw [hd] at h
      exact ih v h

theorem findLikely_isSome (table : List (String × Language)) :
    ∀ l : List Language, (∃ b ∈ l, (dictGet table b.to_tag).isSome = true) →
      ∃ v, findLikely table l = some v := by
  intro l
  induction l with
  | nil =>
    rintro ⟨b, hb, _⟩
    simp at hb
  | cons c rest ih =>
    rintro ⟨b, hb, hs⟩
    simp only [findLikely]
    cases hd : dictGet table c.to_tag with
    | some w => exact ⟨w, rfl⟩
    | none =>
      rcases List.mem_cons.mp hb with heq | hmem
      · subst heq
        rw [hd] at hs
        simp at hs
      · exact ih ⟨b, hmem, hs⟩

theorem tagSegments_update (v r : Language)
    (hl : truthyS r.language = true) (hs : truthyS r.script = true)
    (ht : truthyS r.territory = true) (he : truthyL v.extlangs = false)
    (hv : truthyL v.variants = false) (hx : truthyL v.extensions = false)
    (hp : truthyS v.priv = false) :
    tagSegments (v.update r) = tagSegments r := by
  cases hre : truthyL r.extlangs <;> cases hrv : truthyL r.variants <;>
    cases hrx : truthyL r.extensions <;> cases hrp : truthyS r.priv <;>
    simp [tagSegments, Language.update, orS, orL, hl, hs, ht, he, hv, hx, hp,
      hre, hrv, hrx, hrp]

theorem to_tag_update (v r : Language)
    (hl : truthyS r.language = true) (hs : truthyS r.script = true)
    (ht : truthyS r.territory = true) (he : truthyL v.extlangs = false)
    (hv : truthyL v.variants = false) (hx : truthyL v.extensions = false)
    (hp : truthyS v.priv = false) :
    (v.update r).to_tag = r.to_tag := by
  unfold Language.to_tag
  rw [tagSegments_update v r hl hs ht he hv hx hp]

theorem tuple_distance_le (rules : List ((String × String) × Nat)) (d s : Triple) :
    tuple_distance rules d s ≤ 134 := by
  unfold tuple_distance
  split
  · exact Nat.zero_le _
  · exact Nat.min_le_left _ _

/-- C1: maximize never drops a caller-specified field: whenever
`maximize` succeeds, every truthy attribute of the original tag
appears unchanged in the result, because the looked-up likely-subtags
value is re-merged with the original tag by `update`, whose merge
policy lets the original's truthy fields win. -/
theorem maximize_keeps_fields (table : List (String × Language)) (t r : Language)
    (h : Language.maximize table t = Except.ok r) :
    (truthyS t.language = true → r.language = t.language) ∧
    (truthyL t.extlangs = true → r.extlangs = t.extlangs) ∧
    (truthyS t.script = true → r.script = t.script) ∧
    (truthyS t.territory = true → r.territory = t.territory) ∧
    (truthyL t.variants = true → r.variants = t.variants) ∧
    (truthyL t.extensions = true → r.extensions = t.extensions) ∧
    (truthyS t.priv = true → r.priv = t.priv) := by
  unfold Language.maximize at h
  cases hf : findLikely table t.broaden with
  | none =>
    rw [hf] at h
    cases h
  | some v =>
    rw [hf] at h
    cases h
    refine ⟨?_, ?_, ?_, ?_, ?_, ?_, ?_⟩ <;> intro ht <;>
      simp [Language.update, orS, orL, ht]

theorem maximize_keeps_fields_witness :
    Language.maximize
        [("en", { language := some "en", script := some "Latn", territory := some "US" })]
        { language := some "en", territory := some "IN" }
      = Except.ok { language := some "en", script := some "Latn", territory := some "IN" } ∧
    ({ language := some "en", script := some "Latn", territory := some "IN" } : Language).territory
      = ({ language := some "en", territory := some "IN" } : Language).territory := by
  constructor
  · rfl
  · exact (maximize_keeps_fields
      [("en", { language := some "en", script := some "Latn", territory := some "US" })]
      { language := some "en", territory := some "IN" }
      { language := some "en", script := some "Latn", territory := some "IN" }
      (by rfl)).2.2.2.1 (by rfl)

/-- C2 (failing-input evaluation): for the language-only tag `en`, the
restriction to the keyset with language, script and territory
serializes to `en` again, identical to the original tag, and is not
skipped: `broaden` yields the serializations `en`, `en`, `und`, with
a duplicate.  The skip-set is initialized to `set(self.to_tag())`,
the set of the characters of the tag, so a restricted form equal to
the whole tag is never caught by it. -/
theorem broaden_language_only_duplicate :
    (Language.broaden { language := some "en" }).map Language.to_tag
      = ["en", "en", "und"] := by
  rfl

/-- C3: whenever `distance` returns a value, that value lies in the
legal output range 0 to 134: value-equal tags give 0 directly, and
the rule-table distance of the two triples is clamped to 134. -/
theorem distance_range (likely : List (String × Language))
    (macros : List (String × String)) (rules : List ((String × String) × Nat))
    (a b : Language) (n : Nat)
    (h : Language.distance likely macros rules a b = Except.ok n) :
    0 ≤ n ∧ n ≤ 134 := by
  refine ⟨Nat.zero_le n, ?_⟩
  unfold Language.distance at h
  split at h
  · cases h
    exact Nat.zero_le _
  · cases h1 : tripleFor likely macros a with
    | error e =>
      rw [h1] at h
      cases h
    | ok dt =>
      rw [h1] at h
      cases h2 : tripleFor likely macros b with
      | error e =>
        rw [h2] at h
        cases h
      | ok st =>
        rw [h2] at h
        cases h
        exact tuple_distance_le rules dt st

theorem distance_range_witness :
    Language.distance [] [] [] { language := some "en" } { language := some "en" }
        = Except.ok 0 ∧ 0 ≤ 0 ∧ 0 ≤ 134 :=
  ⟨rfl, distance_range [] [] [] { language := some "en" } { language := some "en" } 0 rfl⟩

/-- C4: when the desired language is literally an element of the
supported list, `closest_match` returns it with distance 0 for every
`max_distance`, no matter what the parser, the tables, the rules or
the fuel are: the membership short-circuit fires before anything else
runs. -/
theorem closest_match_literal (parse : String → Option (List (Subtag × String)))
    (lreps treps dscripts macros : List (String × String))
    (likely : List (String × Language)) (rules : List ((String × String) × Nat))
    (fuel : Nat) (desired : String) (supported : List String) (max_distance : Nat)
    (h : desired ∈ supported) :
    closest_match parse lreps treps dscripts macros likely rules fuel desired
      supported max_distance = some (desired, 0) := by
  unfold closest_match
  rw [if_pos h]

theorem closest_match_literal_witness :
    closest_match (fun _ => none) [] [] [] [] [] [] 0 "en" ["de", "en"] 25
      = some ("en", 0) :=
  closest_match_literal (fun _ => none) [] [] [] [] [] [] 0 "en" ["de", "en"] 25
    (by decide)

/-- C5: `simplify_script` removes the script exactly when the language
is set and the script equals the registered default script for that
language in the default-scripts table, and returns the tag unchanged
in every other case. -/
theorem simplify_script_default (ds : List (String × String)) (t : Language) :
    (scriptIsDefault ds t → Language.simplify_script ds t = { t with script := none }) ∧
    (¬ scriptIsDefault ds t → Language.simplify_script ds t = t) := by
  constructor
  · rintro ⟨l, s, hl, hl0, hs, hs0, hd⟩
    have h1 : truthyS t.language = true := by
      rw [hl]
      simp [truthyS, hl0]
    have h2 : truthyS t.script = true := by
      rw [hs]
      simp [truthyS, hs0]
    have hb : (truthyS t.language && truthyS t.script) = true := by
      rw [h1, h2]
      rfl
    have hbeq : (dictGet ds (t.language.getD "") == t.script) = true := by
      rw [hl, hs]
      show (dictGet ds l == some s) = true
      rw [hd]
      simp
    unfold Language.simplify_script
    rw [if_pos hb, if_pos hbeq]
  · intro hn
    unfold Language.simplify_script
    split
    case isTrue hb =>
      split
      case isTrue hbeq =>
        exfalso
        apply hn
        rw [Bool.and_eq_true] at hb
        obtain ⟨hbl, hbs⟩ := hb
        cases htl : t.language with
        | none =>
          rw [htl] at hbl
          simp [truthyS] at hbl
        | some l =>
          cases hts : t.script with
          | none =>
            rw [hts] at hbs
            simp [truthyS] at hbs
          | some s =>
            refine ⟨l, s, htl, ?_, hts, ?_, ?_⟩
            · rw [htl] at hbl
              simpa [truthyS] using hbl
            · rw [hts] at hbs
              simpa [truthyS] using hbs
            · rw [htl, hts] at hbeq
              simpa using hbeq
      case isFalse => rfl
    case isFalse => rfl

theorem simplify_script_default_witness :
    Language.simplify_script [("en", "Latn")]
        { language := some "en", script := some "Latn" }
      = { language := some "en" } ∧
    Language.simplify_script []
        { language := some "en", script := some "Latn" }
      = { language := some "en", script := some "Latn" } := by
  constructor
  · exact (simplify_script_default [("en", "Latn")]
      { language := some "en", script := some "Latn" }).1
      ⟨"en", "Latn", rfl, by decide, rfl, by decide, rfl⟩
  · exact (simplify_script_default []
      { language := some "en", script := some "Latn" }).2
      (by rintro ⟨l, s, _, _, _, _, hd⟩; cases hd)

/-- C6: maximize is idempotent up to the value equality of Language
objects (equality of serializations), provided the likely-subtags
table has an entry for `und` (the spec requires the fully-empty form
to always have one) and every table value is a full
language-script-territory triple (the shape of all likely-subtags
values): maximizing a maximized tag hits the table again and merging
the hit into the already-full tag changes nothing observable. -/
theorem maximize_idempotent (table : List (String × Language))
    (h1 : ∀ k v, dictGet table k = some v → FullTriple v)
    (h2 : (dictGet table "und").isSome = true)
    (t r : Language) (h : Language.maximize table t = Except.ok r) :
    ∃ r2, Language.maximize table r = Except.ok r2 ∧ r2.to_tag = r.to_tag := by
  unfold Language.maximize at h
  cases hf : findLikely table t.broaden with
  | none =>
    rw [hf] at h
    cases h
  | some v =>
    rw [hf] at h
    cases h
    obtain ⟨k, hk⟩ := findLikely_mem table t.broaden v hf
    have hv := h1 k v hk
    have hrl : truthyS (v.update t).language = true := by
      have : (v.update t).language = orS t.language v.language := rfl
      rw [this]
      exact truthyS_orS _ _ hv.1
    have hrs : truthyS (v.update t).script = true := by
      have : (v.update t).script = orS t.script v.script := rfl
      rw [this]
      exact truthyS_orS _ _ hv.2.1
    have hrt : truthyS (v.update t).territory = true := by
      have : (v.update t).territory = orS t.territory v.territory := rfl
      rw [this]
      exact truthyS_orS _ _ hv.2.2.1
    obtain ⟨bu, hbu, hbut⟩ := broaden_has_und (v.update t)
    obtain ⟨v2, hf2⟩ := findLikely_isSome table (v.update t).broaden
      ⟨bu, hbu, by rw [hbut]; exact h2⟩
    obtain ⟨k2, hk2⟩ := findLikely_mem table _ v2 hf2
    have hv2 := h1 k2 v2 hk2
    refine ⟨v2.update (v.update t), ?_, ?_⟩
    · unfold Language.maximize
      rw [hf2]
    · exact to_tag_update v2 (v.update t) hrl hrs hrt hv2.2.2.2.1 hv2.2.2.2.2.1
        hv2.2.2.2.2.2.1 hv2.2.2.2.2.2.2

theorem maximize_idempotent_witness :
    ∃ r2, Language.maximize
        [("und", { language := some "en", script := some "Latn", territory := some "US" })]
        { language := some "en", script := some "Latn", territory := some "US" }
          = Except.ok r2 ∧
      r2.to_tag
        = ({ language := some "en", script := some "Latn", territory := some "US" } :
            Language).to_tag := by
  refine maximize_idempotent
    [("und", { language := some "en", script := some "Latn", territory := some "US" })]
    ?_ (by rfl) {} { language := some "en", script := some "Latn", territory := some "US" }
    (by rfl)
  intro k v hkv
  simp only [dictGet] at hkv
  split at hkv
  · cases hkv
    exact ⟨rfl, rfl, rfl, rfl, rfl, rfl, rfl⟩
  · cases hkv

/-- C7: the equality of Language values holds exactly when their
canonical serializations are equal strings; it is value equality, not
structural-field equality, as the two structurally different values
serializing to `und` show. -/
theorem language_eq_iff_serialization :
    (∀ a b : Language, Language.eq a b = true ↔ a.to_tag = b.to_tag) ∧
    Language.eq { } { language := some "und" } = true ∧
    ({ } : Language) ≠ ({ language := some "und" } : Language) := by
  refine ⟨fun a b => ?_, by rfl, by decide⟩
  simp [Language.eq]

/-- C8: Language instances are interned: a second `make` with the
identical attribute values returns the very pair produced by the
first call, with the same stored instance and the cache unchanged, so
no second object is ever created for an attribute set that was seen
before. -/
theorem make_interned_cached (instances : List (MakeKey × Language))
    (language : Option String) (extlangs : Option (List String))
    (script territory : Option String) (variants extensions : Option (List String))
    (priv : Option String) :
    makeInterned (makeInterned instances language extlangs script territory variants
        extensions priv).2 language extlangs script territory variants extensions priv
      = makeInterned instances language extlangs script territory variants extensions
          priv := by
  unfold makeInterned
  cases hf : dictGet instances
      (makeKey language extlangs script territory variants extensions priv) with
  | some inst => simp [hf]
  | none => simp [hf, dictGet]

/-- C9: when no broadened form of a tag, among which there is always
one serializing to `und`, is a key of the likely-subtags table,
maximize raises the RuntimeError naming the LIKELY_SUBTAGS data
instead of returning a value. -/
theorem maximize_no_table_hit (table : List (String × Language)) (t : Language)
    (h : ∀ b ∈ t.broaden, dictGet table b.to_tag = none) :
    (∃ b ∈ t.broaden, b.to_tag = "und") ∧
      Language.maximize table t = Except.error likelySubtagsErrorMsg := by
  constructor
  · obtain ⟨b, hb, hbt⟩ := broaden_has_und t
    exact ⟨b, hb, hbt⟩
  · unfold Language.maximize
    rw [findLikely_none table t.broaden h]

theorem maximize_no_table_hit_witness :
    (∃ b ∈ ({ } : Language).broaden, b.to_tag = "und") ∧
      Language.maximize [] { } = Except.error likelySubtagsErrorMsg :=
  maximize_no_table_hit [] { } (fun _ _ => rfl)

/-- C10: when the parser classifies the whole input as a single
grandfathered component and no whole-tag replacement applies
(normalization disabled, or the lowercased tag has no entry in the
language replacements), `Language.get` stores the entire grandfathered
value as the language attribute and leaves every other attribute
unset. -/
theorem get_grandfathered (parse : String → Option (List (Subtag × String)))
    (lreps treps : List (String × String)) (fuel : Nat) (normalize : Bool)
    (tag v : String)
    (hrep : normalize = false ∨ dictGet lreps tag.toLower = none)
    (hp : parse tag = some [(Subtag.grandfathered, v)]) :
    language_get parse lreps treps (fuel + 1) normalize tag
      = some { language := some v } := by
  unfold language_get
  have htag : (if normalize then (dictGet lreps tag.toLower).getD tag else tag) = tag := by
    rcases hrep with h | h
    · simp [h]
    · cases normalize <;> simp [h]
  rw [htag]
  simp [hp, getLoop]

theorem get_grandfathered_witness :
    language_get (parseGrandfathered ["en-gb-oed"]) [] [] 1 false "en-gb-oed"
      = some { language := some "en-gb-oed" } :=
  get_grandfathered (parseGrandfathered ["en-gb-oed"]) [] [] 0 false
    "en-gb-oed" "en-gb-oed" (Or.inl rfl) (by rfl)

end Langcodes
